import Mathlib

/-!
Verification of the hydra-provisioner reconciliation controller
(src/hydra_provisioner/__main__.py) against its natural-language
specification.

The Python source is shallowly embedded below.  Conventions:

* Python dicts become association lists `List (String × _)` with a
  first-match lookup `lookupA` (keys of a dict are distinct, which enters
  the theorems as a `Nodup` hypothesis where it matters).
* Python string operations (`startswith`, `replace`, `split`, `join`,
  `str.replace('"', '')`) are translated to structurally recursive
  functions on `String.data` so that every definition is executable and
  kernel-reducible.
* Machine integers are modelled as `Int`/`Nat`; the float division in
  `math.ceil(x / float(n))` is modelled as exact ceiling division.
* Code that can raise an uncaught Python exception is modelled with
  `Option`/`Except`: a `none`/`.error` result means the run aborts there.
* Mutable state threaded through loops (the per-type selection loop)
  becomes explicit state passing with a fuel parameter; the fuel only
  bounds iteration and all theorems hold for every fuel.
-/

/-! ## Generic helpers: association lists -/

/-- First-match lookup in an association list, the embedding of a Python
dict access `d.get(k)` / `d[k]`. -/
def lookupA {α : Type} : List (String × α) → String → Option α
  | [], _ => none
  | p :: rest, k => if p.1 = k then some p.2 else lookupA rest k

/-- Remove the first entry with the given key, the embedding of
`del d[k]` for a dict (whose keys are distinct). -/
def eraseKey {α : Type} : List (String × α) → String → List (String × α)
  | [], _ => []
  | p :: rest, k => if p.1 = k then rest else p :: eraseKey rest k

/-- The keys of an association list. -/
def keysOf {α : Type} (l : List (String × α)) : List String :=
  l.map (fun p => p.1)

/-! ## Generic helpers: Python string operations -/

/-- Check that the first list is an initial run of the second; the
embedding of Python `s.startswith(p)` (with arguments `leadsWith p s`). -/
def leadsWith : List Char → List Char → Bool
  | [], _ => true
  | _ :: _, [] => false
  | p :: ps, c :: cs => p = c && leadsWith ps cs

/-- Python `s.startswith(p)`. -/
def pyStartsWith (s p : String) : Bool := leadsWith p.data s.data

/-- Fuel-driven core of Python `s.replace(pat, rep)`: replaces each
leftmost non-overlapping occurrence of `pat`.  The fuel is the length of
the scanned list, which always suffices, and keeps the recursion
structural (hence kernel-reducible). -/
def replaceCharsF (pat rep : List Char) : Nat → List Char → List Char
  | _, [] => []
  | 0, s => s
  | fuel + 1, c :: rest =>
    if (!pat.isEmpty && leadsWith pat (c :: rest)) = true then
      rep ++ replaceCharsF pat rep fuel (rest.drop (pat.length - 1))
    else
      c :: replaceCharsF pat rep fuel rest

/-- Python `s.replace(pat, rep)`. -/
def pyReplace (s pat rep : String) : String :=
  String.mk (replaceCharsF pat.data rep.data s.data.length s.data)

/-- Python `s.split(sep)` for a one-character separator. -/
def splitChars (sep : Char) : List Char → List (List Char)
  | [] => [[]]
  | c :: rest =>
    let r := splitChars sep rest
    if c = sep then [] :: r
    else
      match r with
      | [] => [[c]]
      | g :: gs => (c :: g) :: gs

/-- Python `s.split(sep)` lifted to `String`. -/
def pySplit (s : String) (sep : Char) : List String :=
  (splitChars sep s.data).map String.mk

/-- Split at the first occurrence of a separator character; the embedding
of Python `s.split(sep, 1)`.  The second component is `none` when the
separator does not occur. -/
def breakAtChar (sep : Char) : List Char → List Char × Option (List Char)
  | [] => ([], none)
  | c :: rest =>
    if c = sep then ([], some rest)
    else
      let p := breakAtChar sep rest
      (c :: p.1, p.2)

/-- Python `sep.join(parts)`. -/
def joinStrs (sep : String) : List String → String
  | [] => ""
  | [x] => x
  | x :: xs => x ++ sep ++ joinStrs sep xs

/-- Python `s.replace('"', '')` as used by `get_depl_arg` (drops every
double-quote character). -/
def stripQuotes (s : String) : String :=
  String.mk (s.data.filter (fun c => c ≠ '"'))

/-- Run a fallible operation over a list, failing the whole traversal on
the first failure; the embedding of a Python loop whose body may raise. -/
def optionMapList {α β : Type} (f : α → Option β) : List α → Option (List β)
  | [] => some []
  | a :: as =>
    match f a, optionMapList f as with
    | some b, some bs => some (b :: bs)
    | _, _ => none

/-- Value of a decimal digit character. -/
def digitVal (c : Char) : Nat := c.toNat - '0'.toNat

/-- Value of a big-endian list of decimal digit characters. -/
def digitsVal (l : List Char) : Nat :=
  l.foldl (fun a c => a * 10 + digitVal c) 0

/-! ## Data model

Embeddings of the controller's data: nixops deployments and machines
(`Depl`, `Machine`, `ResState`), the policy (`TypeConfig`, per-key
optional because the source reads it with `dict.get` and defaults), and
the dispatcher status (`TypeStatus`, `MachineStatus`, `RunStatus`). -/

/-- Lifecycle states of a nixops resource used by the controller
(`nixops.resources.ResourceState`); `other` stands for every further
state the controller does not name. -/
inductive ResState
  | missing
  | starting
  | up
  | stopped
  | other
deriving DecidableEq, Repr

/-- A materialised worker machine.  `stateAfterCheck` is the oracle for
the state the machine reports after `machine.check()` runs (`check`
mutates `state` in the source). -/
structure Machine where
  state : ResState := ResState.missing
  stateAfterCheck : ResState := ResState.missing
  sshName : String := ""
  nextChargeTime : Option Int := none
  publicHostKey : List Nat := []
deriving DecidableEq, Repr

/-- A nixops deployment as seen by the controller: a name, the argument
dict (the controller uses keys `tag` and `type`), and the optional
machine resource (`depl.machines.get("machine", None)`). -/
structure Depl where
  name : String := ""
  args : List (String × String) := []
  machine : Option Machine := none
deriving DecidableEq, Repr

/-- Per-type dispatcher status entry.  `runnable` is accessed with `[]`
(always present); `lastActive` with `.get("lastActive", 0)`. -/
structure TypeStatus where
  runnable : Int := 0
  lastActive : Option Int := none
deriving DecidableEq, Repr

/-- Per-machine dispatcher status entry (`currentJobs` is read with
`.get("currentJobs", 0)`). -/
structure MachineStatus where
  currentJobs : Option Int := none
deriving DecidableEq, Repr

/-- Per-type policy.  Every field the source reads with
`type_config.get(key, default)` is optional here and defaulted at the
use site, exactly as in the source.  `nixopsExpr`/`nixPath` only feed
the deployment engine and are not observed by any claim, so they are
omitted. -/
structure TypeConfig where
  ignoredRunnables : Option Int := none
  runnablesPerMachine : Option Int := none
  minMachines : Option Int := none
  maxMachines : Option Int := none
  gracePeriod : Option Int := none
  stopOnIdle : Option Bool := none
  sshKey : Option String := none
  maxJobs : Option Int := none
  speedFactor : Option Int := none
deriving DecidableEq, Repr

/-- The normalised dispatcher status used by the run after the fetch
step (`machineTypes`, `machines`, `uptime`). -/
structure RunStatus where
  machineTypes : List (String × TypeStatus) := []
  machines : List (String × MachineStatus) := []
  uptime : Int := 0
deriving DecidableEq, Repr

/-! ## Embeddings of the module-level helper functions -/

/-- Embedding of `get_depl_arg(depl, key, default="")`: dict get with a
default, then `.replace('"', '')`. -/
def get_depl_arg (depl : Depl) (key dflt : String) : String :=
  stripQuotes ((lookupA depl.args key).getD dflt)

/-- Embedding of `get_depl_time_left(depl)`: zero when there is no
machine or no next-charge time, else `max(next_charge_time - now, 0)`.
The source calls `int(time.time())`; the current time is passed
explicitly. -/
def get_depl_time_left (now : Int) (depl : Depl) : Int :=
  match depl.machine with
  | none => 0
  | some m =>
    match m.nextChargeTime with
    | none => 0
    | some t => max (t - now) 0

/-- Embedding of `depl_state(depl)`: the machine's state, or `MISSING`
when the deployment has no machine resource. -/
def depl_state (depl : Depl) : ResState :=
  match depl.machine with
  | none => ResState.missing
  | some m => m.state

/-- Fuel-driven search for the first index `i` whose candidate name
`pfx ++ "-" ++ str(i)` is not taken; the body of the `while True` loop
in `get_new_deployment_name`.  Fuel `names.length + 1` always suffices
(shown below), so the embedding is faithful to the unbounded loop. -/
def findFreeIdx (pfx : String) (names : List String) : Nat → Nat → Nat
  | 0, i => i
  | fuel + 1, i =>
    if (pfx ++ "-" ++ Nat.repr i) ∈ names then findFreeIdx pfx names fuel (i + 1)
    else i

/-- Embedding of `get_new_deployment_name(prefix, depls)`; `names` is
`{depl.name for depl in depls}`, passed as a list. -/
def get_new_deployment_name (pfx : String) (names : List String) : String :=
  pfx ++ "-" ++ Nat.repr (findFreeIdx pfx names (names.length + 1) 0)

/-- The tag-filtered inventory `depls` built at the top of `main`:
`[depl for depl in all_depls if get_depl_arg(depl, "tag") == tag]`. -/
def taggedDepls (tag : String) (all_depls : List Depl) : List Depl :=
  all_depls.filter (fun depl => get_depl_arg depl "tag" "" = tag)

/-- The name chosen for a deployment created during the selection loop:
`get_new_deployment_name(tag, depls)` where `depls` is the tag-filtered
inventory (source lines 64 and 127). -/
def creation_name (tag : String) (all_depls : List Depl) : String :=
  get_new_deployment_name tag ((taggedDepls tag all_depls).map (fun d => d.name))

/-! ## Status fetcher (source lines 68-75)

The source catches only `subprocess.CalledProcessError`; a stdout that
is not JSON raises `json.JSONDecodeError` out of `json.loads`, and a
parsed document that is truthy but lacks the key `"status"` raises
`KeyError` at `status["status"]`.  Both escape the `try` and abort the
run, which the embedding records as an `.error` result. -/

/-- A parsed dispatcher status document.  `truthy` is the Python truth
value of the parsed object (`not status`); `statusField` models the
presence and value of the `"status"` key.  The remaining keys are the
ones later stages of `main` read. -/
structure StatusDoc where
  truthy : Bool := true
  statusField : Option String := none
  machineTypes : List (String × TypeStatus) := []
  machines : List (String × MachineStatus) := []
  uptime : Int := 0
deriving DecidableEq, Repr

/-- Outcome of running `statusCommand` and `json.loads` on its stdout. -/
inductive StatusFetchInput
  | cmdFailed
  | badJson
  | parsed (doc : StatusDoc)
deriving DecidableEq, Repr

/-- Python exceptions that can escape the status-fetch block. -/
inductive PyError
  | jsonDecodeError
  | keyError
deriving DecidableEq, Repr

/-- The synthesised down status
`{"status": "down", "machineTypes": {}, "machines": {}, "uptime": 0}`. -/
def downStatusDoc : StatusDoc :=
  { truthy := true
    statusField := some "down"
    machineTypes := []
    machines := []
    uptime := 0 }

/-- Embedding of source lines 69-75: the `try/except` around
`json.loads(subprocess.check_output(...))` followed by
`if not status or status["status"] == "down"`. -/
def fetchStatus : StatusFetchInput → Except PyError StatusDoc
  | StatusFetchInput.cmdFailed => Except.ok downStatusDoc
  | StatusFetchInput.badJson => Except.error PyError.jsonDecodeError
  | StatusFetchInput.parsed doc =>
    if doc.truthy = false then Except.ok downStatusDoc
    else
      match doc.statusField with
      | none => Except.error PyError.keyError
      | some s => if s = "down" then Except.ok downStatusDoc else Except.ok doc

/-! ## Architecture folding (source lines 79-87) -/

/-- Total runnable count of a machine-type table. -/
def runSum (mt : List (String × TypeStatus)) : Int :=
  (mt.map (fun p => p.2.runnable)).sum

/-- Add `add` to the `runnable` field of the entry with the given key;
the embedding of `status["machineTypes"][target]["runnable"] += r`. -/
def bumpRunnable (mt : List (String × TypeStatus)) (k : String) (add : Int) :
    List (String × TypeStatus) :=
  mt.map (fun p =>
    if p.1 = k then (p.1, { p.2 with runnable := p.2.runnable + add }) else p)

/-- One iteration of the folding loop for key `type_name`: if the key
starts with `i686-linux`, merge its entry into the `x86_64-linux`
replacement (summing `runnable`) when the target exists, rename it
otherwise, and delete the original key.  The `none` lookup branch is
unreachable when the key comes from the table (it mirrors the source,
where `status["machineTypes"][type_name]` is a plain subscript). -/
def foldStep (mt : List (String × TypeStatus)) (type_name : String) :
    List (String × TypeStatus) :=
  if pyStartsWith type_name "i686-linux" then
    let target_name := pyReplace type_name "i686-linux" "x86_64-linux"
    match lookupA mt type_name with
    | none => mt
    | some type_status =>
      let mt' :=
        match lookupA mt target_name with
        | some _ => bumpRunnable mt target_name type_status.runnable
        | none => mt ++ [(target_name, type_status)]
      eraseKey mt' type_name
  else mt

/-- Embedding of the folding loop: iterate over the snapshot of the
table's keys (`status["machineTypes"].keys()`), threading the table. -/
def foldArchs (mt : List (String × TypeStatus)) : List (String × TypeStatus) :=
  (keysOf mt).foldl foldStep mt

/-! ## Sizer (source lines 96-109) -/

/-- Embedding of
`int(math.ceil(max(runnable - ignored_runnables, 0) / float(runnables_per_machine)))`
with the float division made exact (ceiling division). -/
def wantedMachines (runnable ignored per : Int) : Int :=
  Int.ofNat (((max (runnable - ignored) 0).toNat + per.toNat - 1) / per.toNat)

/-- Embedding of the `wanted` computation with the source's defaults
(`ignoredRunnables` 0, `runnablesPerMachine` 10). -/
def computeWanted (runnable : Int) (tc : TypeConfig) : Int :=
  wantedMachines runnable (tc.ignoredRunnables.getD 0) (tc.runnablesPerMachine.getD 10)

/-- Embedding of
`allowed = min(max(wanted, minMachines), maxMachines)` with the source's
defaults (`minMachines` 0, `maxMachines` 1). -/
def computeAllowed (runnable : Int) (tc : TypeConfig) : Int :=
  min (max (computeWanted runnable tc) (tc.minMachines.getD 0)) (tc.maxMachines.getD 1)

/-- The runnable count the sizer reads:
`status["machineTypes"].get(type_name, {"runnable": 0})["runnable"]`. -/
def runnableOf (o : Option TypeStatus) : Int :=
  match o with
  | some ts => ts.runnable
  | none => 0

/-! ## Selection loop (source lines 119-167) -/

/-- Mutable state of the per-type selection loop: the sorted pool of
existing deployments of this type, the tag-filtered inventory `depls`
(new creations are appended so later allocations see them), the
retention set `in_use`, and the counters `have` and `created`. -/
structure SelState where
  existing : List Depl := []
  depls : List Depl := []
  inUse : List Depl := []
  nHave : Nat := 0
  created : Nat := 0
deriving DecidableEq, Repr

/-- Embedding of `depl.machines["machine"].check()`: the machine's state
becomes the state reported by the check oracle. -/
def runCheck (depl : Depl) : Depl :=
  match depl.machine with
  | none => depl
  | some m => { depl with machine := some { m with state := m.stateAfterCheck } }

/-- Embedding of `existing.sort(key=depl_sort_key)` where the key is
`[depl_state(depl) != UP]`: a stable sort on a boolean key, i.e. the
stable partition keeping `up` deployments first. -/
def sortPool (l : List Depl) : List Depl :=
  l.filter (fun d => decide (depl_state d = ResState.up)) ++
    l.filter (fun d => !decide (depl_state d = ResState.up))

/-- The deployment record produced by `sf.create_deployment()` followed
by `depl.name = name; depl.set_argstr("type", ...); depl.set_argstr("tag", ...)`.
A fresh deployment has no machine resource yet. -/
def mkCreatedDepl (tag type_name nm : String) : Depl :=
  { name := nm
    args := [("type", type_name), ("tag", tag)]
    machine := none }

/-- Embedding of the `while have < allowed` selection loop for one
machine type.  Each constructor-level branch mirrors one path of the
loop body; the common tail (mark in-use, `have += 1`,
`if created >= 1: break`) is inlined in each accepting branch.  The fuel
bounds the number of iterations; every theorem below holds for every
fuel. -/
def selLoop (allowed : Nat) (tag type_name : String) :
    Nat → SelState → SelState
  | 0, s => s
  | fuel + 1, s =>
    if s.nHave < allowed then
      match s.existing with
      | [] =>
        let nm := get_new_deployment_name tag (s.depls.map (fun d => d.name))
        let depl := mkCreatedDepl tag type_name nm
        let s' : SelState :=
          { s with
            depls := s.depls ++ [depl]
            created := s.created + 1
            inUse := s.inUse ++ [depl]
            nHave := s.nHave + 1 }
        if 1 ≤ s'.created then s' else selLoop allowed tag type_name fuel s'
      | depl :: rest =>
        if depl_state depl = ResState.up then
          let depl' := runCheck depl
          if depl_state depl' = ResState.up then
            let s' : SelState :=
              { s with
                existing := rest
                inUse := s.inUse ++ [depl']
                nHave := s.nHave + 1 }
            if 1 ≤ s'.created then s' else selLoop allowed tag type_name fuel s'
          else
            selLoop allowed tag type_name fuel
              { s with existing := sortPool (depl' :: rest) }
        else if depl_state depl = ResState.missing then
          selLoop allowed tag type_name fuel { s with existing := rest }
        else
          let s' : SelState :=
            { s with
              existing := rest
              inUse := s.inUse ++ [depl]
              nHave := s.nHave + 1 }
          if 1 ≤ s'.created then s' else selLoop allowed tag type_name fuel s'
    else s

/-! ## Retention pass (source lines 172-220) -/

/-- Decision for one deployment not selected for demand: move it to
`expired`, or keep it in `in_use` (with the flag recording whether it
was also added to `unusable`). -/
inductive RetDecision
  | toExpired
  | keep (unusable : Bool)
deriving DecidableEq, Repr

/-- The grace period of a type:
`type_config.get("gracePeriod", 0) if type_config else 0`. -/
def gracePeriodOf (systemTypes : List (String × TypeConfig)) (type_name : String) : Int :=
  match lookupA systemTypes type_name with
  | some tc => tc.gracePeriod.getD 0
  | none => 0

/-- The raw last-active time of a type:
`type_status.get("lastActive", 0) if type_status else 0`. -/
def lastActiveRaw (status : RunStatus) (type_name : String) : Int :=
  match lookupA status.machineTypes type_name with
  | some ts => ts.lastActive.getD 0
  | none => 0

/-- The condition
`machine_status and machine_status.get("currentJobs", 0) != 0`:
an entry must be present (a missing key yields the falsy `{}`) and its
`currentJobs` (defaulted to 0) must be non-zero. -/
def jobsActive (machine_status : Option MachineStatus) : Bool :=
  match machine_status with
  | some ms => decide (ms.currentJobs.getD 0 ≠ 0)
  | none => false

/-- Embedding of the retention loop body (source lines 172-220) for one
deployment that is not in `in_use`.  A `none` result models the
uncaught `AttributeError` that `m.get_ssh_name()` would raise if the
machine handle were absent at that point. -/
def retentionClassify (now : Int) (systemTypes : List (String × TypeConfig))
    (status : RunStatus) (depl : Depl) : Option RetDecision :=
  if depl_state depl ≠ ResState.up ∧ depl_state depl ≠ ResState.starting then
    some RetDecision.toExpired
  else
    let type_name := get_depl_arg depl "type" ""
    let grace_period := gracePeriodOf systemTypes type_name
    let time_left := get_depl_time_left now depl
    if 30 * 60 ≤ time_left then some (RetDecision.keep false)
    else
      match depl.machine with
      | none => none
      | some m =>
        let machine_status := lookupA status.machines ("root@" ++ m.sshName)
        if jobsActive machine_status then
          some (RetDecision.keep (decide (0 < grace_period)))
        else
          let la0 := lastActiveRaw status type_name
          let last_active := if la0 = 0 then now - status.uptime + 1800 else la0
          if now - last_active < grace_period then some (RetDecision.keep false)
          else some RetDecision.toExpired

/-! ## Roster emission (source lines 237-268) -/

/-- Base64 alphabet. -/
def b64Chars : List Char :=
  "ABCDEFGHIJKLMNOPQRSTUVWXYZabcdefghijklmnopqrstuvwxyz0123456789+/".data

/-- Character for a 6-bit group. -/
def b64Char (n : Nat) : Char := b64Chars.getD n 'A'

/-- Base64 of a byte list (the embedding of `base64.b64encode`). -/
def b64encode : List Nat → List Char
  | [] => []
  | [a] => [b64Char (a / 4), b64Char (a % 4 * 16), '=', '=']
  | [a, b] => [b64Char (a / 4), b64Char (a % 4 * 16 + b / 16), b64Char (b % 16 * 4), '=']
  | a :: b :: c :: rest =>
    [b64Char (a / 4), b64Char (a % 4 * 16 + b / 16), b64Char (b % 16 * 4 + c / 64),
      b64Char (c % 64)] ++ b64encode rest

/-- Embedding of `if ":" not in type_name: type_name += ":"` followed by
`type_name.split(":", 1)`. -/
def systemsFeatures (t : String) : String × String :=
  let tn := if ':' ∈ t.data then t else t ++ ":"
  let p := breakAtChar ':' tn.data
  (String.mk p.1, String.mk (p.2.getD []))

/-- The `systems_list` of a type identifier before the i686 re-append:
`systems.split(",")`. -/
def systemsListRaw (t : String) : List String :=
  pySplit (systemsFeatures t).1 ','

/-- The `features_list`: `features.split(",") if features != "" else []`. -/
def featuresList (t : String) : List String :=
  let f := (systemsFeatures t).2
  if f = "" then [] else pySplit f ','

/-- The final systems list of a roster line, after
`if "x86_64-linux" in systems_list and "i686-linux" not in systems_list:
systems_list.append("i686-linux")`. -/
def rosterSystems (t : String) : List String :=
  let sl := systemsListRaw t
  if "x86_64-linux" ∈ sl ∧ "i686-linux" ∉ sl then sl ++ ["i686-linux"] else sl

/-- Embedding of the roster-line body for one deployment (source lines
242-266).  `none` models an aborting run: the failed `assert(m)`, the
`KeyError` of the plain subscript `config["systemTypes"][type_name]`, or
the failed `assert(all(c != "" for c in columns))`. -/
def rosterColumns (systemTypes : List (String × TypeConfig)) (depl : Depl) :
    Option (List String) :=
  match depl.machine with
  | none => none
  | some m =>
    let type_name := get_depl_arg depl "type" ""
    match lookupA systemTypes type_name with
    | none => none
    | some tc =>
      let columns : List String :=
        [ "root@" ++ m.sshName
        , joinStrs "," (rosterSystems type_name)
        , tc.sshKey.getD "-"
        , toString (tc.maxJobs.getD 1)
        , toString (tc.speedFactor.getD 1)
        , if featuresList type_name = [] then "-" else joinStrs "," (featuresList type_name)
        , if featuresList type_name = [] then "-" else joinStrs "," (featuresList type_name)
        , if m.publicHostKey = [] then "-" else String.mk (b64encode m.publicHostKey) ]
      if columns.all (fun c => decide (c ≠ "")) then some columns else none

/-- A roster line: `" ".join(columns) + "\n"`. -/
def machineLine (columns : List String) : String :=
  joinStrs " " columns ++ "\n"

/-- Embedding of the roster loop: a line for each deployment of
`deployed` that is not in `unusable`, failing if any line body fails. -/
def rosterLines (systemTypes : List (String × TypeConfig))
    (deployed unusable : List Depl) : Option (List String) :=
  optionMapList (fun d => (rosterColumns systemTypes d).map machineLine)
    (deployed.filter (fun d => decide (d ∉ unusable)))

/-! ## Retirement (source lines 281-305) -/

/-- Action taken on an expired deployment: skip it because of paid time,
stop its machines, leave it alone because it is already stopped, or
destroy its resources and delete it. -/
inductive RetireAction
  | skip
  | stopAction
  | alreadyStopped
  | destroyAction
deriving DecidableEq, Repr

/-- Embedding of the retirement loop body for one expired deployment. -/
def retirementStep (now : Int) (systemTypes : List (String × TypeConfig))
    (depl : Depl) : RetireAction :=
  let type_name := get_depl_arg depl "type" ""
  let type_config := lookupA systemTypes type_name
  if (depl_state depl = ResState.up ∨ depl_state depl = ResState.starting) ∧
      10 * 60 ≤ get_depl_time_left now depl then
    RetireAction.skip
  else
    let stop_on_idle :=
      match type_config with
      | some tc => tc.stopOnIdle.getD false
      | none => false
    if stop_on_idle then
      if depl_state depl ≠ ResState.stopped then RetireAction.stopAction
      else RetireAction.alreadyStopped
    else RetireAction.destroyAction

/-! ## Supporting lemmas -/

theorem lookupA_none_iff {α : Type} (l : List (String × α)) (k : String) :
    lookupA l k = none ↔ k ∉ keysOf l := by
  induction l with
  | nil => simp [lookupA, keysOf]
  | cons p rest ih =>
    by_cases h : p.1 = k
    · simp [lookupA, keysOf, h]
    · have h' : ¬ k = p.1 := fun hk => h hk.symm
      simp [lookupA, keysOf, h, h', ih]

theorem lookupA_isSome_of_mem {α : Type} (l : List (String × α)) (k : String)
    (h : k ∈ keysOf l) : ∃ v, lookupA l k = some v := by
  cases hv : lookupA l k with
  | none => exact absurd ((lookupA_none_iff l k).1 hv) (by simp [h])
  | some v => exact ⟨v, rfl⟩

theorem eraseKey_sublist {α : Type} (l : List (String × α)) (k : String) :
    (eraseKey l k).Sublist l := by
  induction l with
  | nil => simp [eraseKey]
  | cons p rest ih =>
    by_cases h : p.1 = k
    · rw [eraseKey, if_pos h]
      exact List.Sublist.cons p (List.Sublist.refl rest)
    · rw [eraseKey, if_neg h]
      exact List.Sublist.cons₂ p ih

theorem mem_keys_eraseKey {α : Type} {l : List (String × α)} {k k' : String}
    (h : k' ∈ keysOf (eraseKey l k)) : k' ∈ keysOf l := by
  have hs : (keysOf (eraseKey l k)).Sublist (keysOf l) :=
    List.Sublist.map _ (eraseKey_sublist l k)
  exact hs.mem h

theorem not_mem_keys_eraseKey_self {α : Type} {l : List (String × α)} {k : String}
    (hnd : (keysOf l).Nodup) : k ∉ keysOf (eraseKey l k) := by
  induction l with
  | nil => simp [eraseKey, keysOf]
  | cons p rest ih =>
    simp only [keysOf, List.map_cons, List.nodup_cons] at hnd
    by_cases h : p.1 = k
    · subst h
      simpa [eraseKey, keysOf] using hnd.1
    · simp only [eraseKey, h, if_false, keysOf, List.map_cons, List.mem_cons]
      push_neg
      exact ⟨fun hk => h hk.symm, ih hnd.2⟩

theorem lookupA_eraseKey_ne {α : Type} (l : List (String × α)) {k k' : String}
    (h : k' ≠ k) : lookupA (eraseKey l k) k' = lookupA l k' := by
  induction l with
  | nil => simp [eraseKey]
  | cons p rest ih =>
    by_cases hp : p.1 = k
    · have hne : ¬ p.1 = k' := fun hq => h (hq ▸ hp)
      rw [eraseKey, if_pos hp]
      conv_rhs => rw [lookupA, if_neg hne]
    · rw [eraseKey, if_neg hp]
      by_cases hq : p.1 = k'
      · rw [lookupA, if_pos hq]
        conv_rhs => rw [lookupA, if_pos hq]
      · rw [lookupA, if_neg hq]
        conv_rhs => rw [lookupA, if_neg hq]
        exact ih

theorem lookupA_eraseKey_self {α : Type} (l : List (String × α)) (k : String)
    (hnd : (keysOf l).Nodup) : lookupA (eraseKey l k) k = none :=
  (lookupA_none_iff _ _).2 (not_mem_keys_eraseKey_self hnd)

theorem lookupA_append {α : Type} (l₁ l₂ : List (String × α)) (k : String) :
    lookupA (l₁ ++ l₂) k =
      match lookupA l₁ k with
      | some v => some v
      | none => lookupA l₂ k := by
  induction l₁ with
  | nil => simp [lookupA]
  | cons p rest ih =>
    by_cases h : p.1 = k <;> simp [lookupA, h, ih]

theorem eraseKey_append_left {α : Type} (l₁ l₂ : List (String × α)) (k : String)
    (h : k ∈ keysOf l₁) : eraseKey (l₁ ++ l₂) k = eraseKey l₁ k ++ l₂ := by
  induction l₁ with
  | nil => simp [keysOf] at h
  | cons p rest ih =>
    by_cases hp : p.1 = k
    · simp [eraseKey, hp]
    · simp only [keysOf, List.map_cons, List.mem_cons] at h
      rcases h with h | h
      · exact absurd h.symm hp
      · simp [eraseKey, hp, ih h]

theorem leadsWith_append (p t : List Char) : leadsWith p (p ++ t) = true := by
  induction p with
  | nil => simp [leadsWith]
  | cons a ps ih => simp [leadsWith, ih]

theorem leadsWith_exists {p s : List Char} (h : leadsWith p s = true) :
    ∃ t, s = p ++ t := by
  induction p generalizing s with
  | nil => exact ⟨s, rfl⟩
  | cons a ps ih =>
    cases s with
    | nil => simp [leadsWith] at h
    | cons c cs =>
      simp only [leadsWith, Bool.and_eq_true, decide_eq_true_eq] at h
      obtain ⟨t, ht⟩ := ih h.2
      exact ⟨t, by simp [h.1, ht]⟩

theorem leadsWith_head_eq {a b : Char} {ps cs : List Char}
    (h : leadsWith (a :: ps) (b :: cs) = true) : a = b := by
  simp only [leadsWith, Bool.and_eq_true, decide_eq_true_eq] at h
  exact h.1

theorem optionMapList_forall₂ {α β : Type} (f : α → Option β) :
    ∀ (xs : List α) (ys : List β), optionMapList f xs = some ys →
      List.Forall₂ (fun x y => f x = some y) xs ys := by
  intro xs
  induction xs with
  | nil =>
    intro ys h
    simp only [optionMapList, Option.some.injEq] at h
    subst h
    exact List.Forall₂.nil
  | cons a as ih =>
    intro ys h
    simp only [optionMapList] at h
    cases hfa : f a with
    | none => rw [hfa] at h; simp at h
    | some b =>
      rw [hfa] at h
      cases hrest : optionMapList f as with
      | none => rw [hrest] at h; simp at h
      | some bs =>
        rw [hrest] at h
        simp only [Option.some.injEq] at h
        subst h
        exact List.Forall₂.cons hfa (ih bs hrest)

/-! ## Injectivity of the decimal rendering of naturals

Needed for the deployment-name allocator: the candidate names
`tag ++ "-" ++ str(i)` are pairwise distinct, so a free index below
`len(names) + 1` always exists. -/

theorem digitVal_digitChar (d : Nat) (h : d < 10) :
    digitVal (Nat.digitChar d) = d := by
  interval_cases d <;> rfl

theorem toDigitsCore_eq_append :
    ∀ (n fuel : Nat) (ds : List Char), n < fuel →
      Nat.toDigitsCore 10 fuel n ds = Nat.toDigitsCore 10 (n + 1) n [] ++ ds := by
  intro n
  induction n using Nat.strong_induction_on with
  | _ n ih =>
    intro fuel ds h
    cases fuel with
    | zero => omega
    | succ f =>
      by_cases h10 : n / 10 = 0
      · simp [Nat.toDigitsCore, h10]
      · have hlt : n / 10 < n := Nat.div_lt_self (by omega) (by omega)
        simp only [Nat.toDigitsCore, h10, if_false]
        rw [ih (n / 10) hlt f (Nat.digitChar (n % 10) :: ds) (by omega),
            ih (n / 10) hlt n [Nat.digitChar (n % 10)] hlt,
            List.append_assoc]
        rfl

theorem digitsVal_toDigits (n : Nat) :
    digitsVal (Nat.toDigits 10 n) = n := by
  induction n using Nat.strong_induction_on with
  | _ n ih =>
    have hmod : n % 10 < 10 := Nat.mod_lt _ (by omega)
    by_cases h10 : n / 10 = 0
    · have : Nat.toDigits 10 n = [Nat.digitChar (n % 10)] := by
        simp [Nat.toDigits, Nat.toDigitsCore, h10]
      rw [this]
      simp only [digitsVal, List.foldl_cons, List.foldl_nil, Nat.zero_mul,
        Nat.zero_add, digitVal_digitChar _ hmod]
      omega
    · have hlt : n / 10 < n := Nat.div_lt_self (by omega) (by omega)
      have hstep : Nat.toDigits 10 n =
          Nat.toDigits 10 (n / 10) ++ [Nat.digitChar (n % 10)] := by
        simp only [Nat.toDigits, Nat.toDigitsCore, h10, if_false]
        exact toDigitsCore_eq_append (n / 10) n [Nat.digitChar (n % 10)] hlt
      rw [hstep]
      have hfold : digitsVal (Nat.toDigits 10 (n / 10) ++ [Nat.digitChar (n % 10)]) =
          digitsVal (Nat.toDigits 10 (n / 10)) * 10 + digitVal (Nat.digitChar (n % 10)) := by
        simp [digitsVal, List.foldl_append]
      rw [hfold, ih (n / 10) hlt, digitVal_digitChar _ hmod]
      omega

theorem natRepr_injective {m n : Nat} (h : Nat.repr m = Nat.repr n) : m = n := by
  have hd : Nat.toDigits 10 m = Nat.toDigits 10 n := by
    have := congrArg String.data h
    simpa [Nat.repr, List.asString] using this
  have := congrArg digitsVal hd
  rwa [digitsVal_toDigits, digitsVal_toDigits] at this

theorem string_append_data (a b : String) : (a ++ b).data = a.data ++ b.data := by
  cases a; cases b; rfl

theorem nameOfIdx_injective (pfx : String) :
    Function.Injective (fun i : Nat => pfx ++ "-" ++ Nat.repr i) := by
  intro m n h
  simp only at h
  have hdata := congrArg String.data h
  rw [string_append_data, string_append_data, string_append_data,
      string_append_data, List.append_assoc, List.append_assoc] at hdata
  have := List.append_cancel_left hdata
  have := List.append_cancel_left this
  exact natRepr_injective (congrArg String.mk this)

/-! ## Theory of the name allocator -/

theorem findFreeIdx_ge (pfx : String) (names : List String) :
    ∀ fuel i, i ≤ findFreeIdx pfx names fuel i := by
  intro fuel
  induction fuel with
  | zero => intro i; simp [findFreeIdx]
  | succ f ih =>
    intro i
    by_cases h : (pfx ++ "-" ++ Nat.repr i) ∈ names
    · have := ih (i + 1)
      rw [findFreeIdx, if_pos h]
      omega
    · rw [findFreeIdx, if_neg h]

theorem findFreeIdx_taken_below (pfx : String) (names : List String) :
    ∀ fuel i m, i ≤ m → m < findFreeIdx pfx names fuel i →
      (pfx ++ "-" ++ Nat.repr m) ∈ names := by
  intro fuel
  induction fuel with
  | zero =>
    intro i m him hm
    rw [findFreeIdx] at hm
    omega
  | succ f ih =>
    intro i m him hm
    by_cases h : (pfx ++ "-" ++ Nat.repr i) ∈ names
    · rw [findFreeIdx, if_pos h] at hm
      rcases Nat.eq_or_lt_of_le him with heq | hlt
      · subst heq; exact h
      · exact ih (i + 1) m hlt hm
    · rw [findFreeIdx, if_neg h] at hm
      omega

theorem findFreeIdx_free_or_max (pfx : String) (names : List String) :
    ∀ fuel i, (pfx ++ "-" ++ Nat.repr (findFreeIdx pfx names fuel i)) ∉ names ∨
      findFreeIdx pfx names fuel i = i + fuel := by
  intro fuel
  induction fuel with
  | zero => intro i; right; simp [findFreeIdx]
  | succ f ih =>
    intro i
    by_cases h : (pfx ++ "-" ++ Nat.repr i) ∈ names
    · rw [findFreeIdx, if_pos h]
      rcases ih (i + 1) with hfree | hmax
      · exact Or.inl hfree
      · right; omega
    · rw [findFreeIdx, if_neg h]
      exact Or.inl h

/-- Pigeonhole: among the `names.length + 1` pairwise-distinct candidate
names with index at most `names.length`, at least one is unused. -/
theorem exists_free_name (pfx : String) (names : List String) :
    ∃ j, j ≤ names.length ∧ (pfx ++ "-" ++ Nat.repr j) ∉ names := by
  by_contra hcon
  push_neg at hcon
  set L := names.length with hL
  set M : List String :=
    (List.range (L + 1)).map (fun j => pfx ++ "-" ++ Nat.repr j) with hM
  have hnodup : M.Nodup :=
    List.Nodup.map (nameOfIdx_injective pfx) (List.nodup_range (L + 1))
  have hsub : ∀ x ∈ M, x ∈ names := by
    intro x hx
    rw [hM, List.mem_map] at hx
    obtain ⟨j, hj, rfl⟩ := hx
    rw [List.mem_range] at hj
    exact hcon j (by omega)
  have hcard : M.toFinset.card = L + 1 := by
    rw [List.toFinset_card_of_nodup hnodup, hM, List.length_map,
      List.length_range]
  have hle : M.toFinset.card ≤ names.toFinset.card := by
    apply Finset.card_le_card
    intro x hx
    rw [List.mem_toFinset] at hx ⊢
    exact hsub x hx
  have hfin : names.toFinset.card ≤ L := hL ▸ names.toFinset_card_le
  omega

/-- The allocator returns the candidate with the least free index: its
name has the form `pfx ++ "-" ++ str(n)`, is not among the given names,
and every smaller index is taken. -/
theorem get_new_deployment_name_least (pfx : String) (names : List String) :
    ∃ n, get_new_deployment_name pfx names = pfx ++ "-" ++ Nat.repr n ∧
      (pfx ++ "-" ++ Nat.repr n) ∉ names ∧
      ∀ m, m < n → (pfx ++ "-" ++ Nat.repr m) ∈ names := by
  refine ⟨findFreeIdx pfx names (names.length + 1) 0, rfl, ?_, ?_⟩
  · rcases findFreeIdx_free_or_max pfx names (names.length + 1) 0 with hfree | hmax
    · exact hfree
    · exfalso
      obtain ⟨j, hj, hfree⟩ := exists_free_name pfx names
      exact hfree (findFreeIdx_taken_below pfx names (names.length + 1) 0 j
        (Nat.zero_le j) (by omega))
  · intro m hm
    exact findFreeIdx_taken_below pfx names (names.length + 1) 0 m
      (Nat.zero_le m) hm

/-! ## Retention and retirement lemmas -/

theorem retentionClassify_isSome (now : Int) (st : List (String × TypeConfig))
    (status : RunStatus) (depl : Depl) :
    (retentionClassify now st status depl).isSome = true := by
  obtain ⟨nm, ar, mo⟩ := depl
  cases mo with
  | none => simp [retentionClassify, depl_state]
  | some m =>
    simp only [retentionClassify, depl_state]
    split
    · rfl
    · split
      · rfl
      · split
        · rfl
        · split <;> split <;> rfl

theorem machine_present_of_active (depl : Depl)
    (h : depl_state depl = ResState.up ∨ depl_state depl = ResState.starting) :
    depl.machine.isSome = true := by
  cases hm : depl.machine with
  | none =>
    have : depl_state depl = ResState.missing := by simp [depl_state, hm]
    rcases h with h | h <;> rw [this] at h <;> cases h
  | some m => rfl

/-- C9: when the deployment's type has no TypeStatus entry or its
`lastActive` (defaulted to 0) is zero, retention rule 4 imputes
`now - uptime + 1800` and keeps the deployment in `in_use` exactly when
`now - last_active < gracePeriod`, otherwise moving it to `expired`. -/
theorem retention_rule4_imputed (now : Int) (st : List (String × TypeConfig))
    (status : RunStatus) (depl : Depl) (m : Machine)
    (hm : depl.machine = some m)
    (hstate : m.state = ResState.up ∨ m.state = ResState.starting)
    (htl : get_depl_time_left now depl < 30 * 60)
    (hjobs : jobsActive (lookupA status.machines ("root@" ++ m.sshName)) = false)
    (hla : lastActiveRaw status (get_depl_arg depl "type" "") = 0) :
    retentionClassify now st status depl =
      if now - (now - status.uptime + 1800) <
          gracePeriodOf st (get_depl_arg depl "type" "") then
        some (RetDecision.keep false)
      else some RetDecision.toExpired := by
  have hds : depl_state depl = m.state := by simp [depl_state, hm]
  have h1 : ¬ (depl_state depl ≠ ResState.up ∧ depl_state depl ≠ ResState.starting) := by
    rw [hds]
    rcases hstate with h | h <;> simp [h]
  have h2 : ¬ (30 * 60 ≤ get_depl_time_left now depl) := by omega
  rw [retentionClassify, if_neg h1]
  simp only [hm]
  rw [if_neg h2]
  simp only [hjobs, Bool.false_eq_true, if_false, hla]
  simp

/-- Witness for `retention_rule4_imputed` at a concrete input: uptime
5000, `now` 10000, grace period 7000; the imputed last-active time is
6800, so the deployment is kept. -/
theorem retention_rule4_imputed_witness :
    retentionClassify 10000 [("T", { gracePeriod := some 7000 })]
        { machineTypes := [], machines := [], uptime := 5000 }
        { name := "d9", args := [("type", "T")],
          machine := some { state := ResState.up, sshName := "m9" } } =
      if (10000 : Int) - (10000 - (5000 : Int) + 1800) <
          gracePeriodOf [("T", { gracePeriod := some 7000 })] "T" then
        some (RetDecision.keep false)
      else some RetDecision.toExpired := by
  have h := retention_rule4_imputed 10000 [("T", { gracePeriod := some 7000 })]
    { machineTypes := [], machines := [], uptime := 5000 }
    { name := "d9", args := [("type", "T")],
      machine := some { state := ResState.up, sshName := "m9" } }
    { state := ResState.up, sshName := "m9" }
    rfl (Or.inl rfl) (by decide) (by decide) (by decide)
  exact h

/-- C1: the source comment says a machine with no grace period must be
withheld from the machines list, and the spec says the deployment is
added to `unusable` exactly when `gracePeriod == 0`; but the code tests
`if grace_period > 0`.  At a deployment with active jobs: with
`gracePeriod = 0` it is kept and NOT marked unusable, and with
`gracePeriod = 900` it is kept and IS marked unusable — the opposite of
the claim in both directions. -/
theorem retention_zero_grace_inverted :
    (retentionClassify 1000 [("T", { gracePeriod := some 0 })]
        { machineTypes := [], machines := [("root@m1", { currentJobs := some 2 })], uptime := 0 }
        { name := "d1", args := [("type", "T"), ("tag", "t")],
          machine := some { state := ResState.up, sshName := "m1" } } =
      some (RetDecision.keep false))
    ∧ (retentionClassify 1000 [("T", { gracePeriod := some 900 })]
        { machineTypes := [], machines := [("root@m1", { currentJobs := some 2 })], uptime := 0 }
        { name := "d1", args := [("type", "T"), ("tag", "t")],
          machine := some { state := ResState.up, sshName := "m1" } } =
      some (RetDecision.keep true)) := by
  constructor <;> decide

/-- C2: the status fetch catches only `CalledProcessError`.  Unparseable
stdout raises `json.JSONDecodeError` out of `json.loads`, and a truthy
parsed document without a `"status"` key raises `KeyError`; both abort
the run instead of synthesising the down status.  Only a non-zero exit
is synthesised as claimed. -/
theorem fetchStatus_aborts_on_bad_json :
    fetchStatus StatusFetchInput.badJson = Except.error PyError.jsonDecodeError
    ∧ fetchStatus (StatusFetchInput.parsed { statusField := none }) =
        Except.error PyError.keyError
    ∧ fetchStatus StatusFetchInput.cmdFailed = Except.ok downStatusDoc :=
  ⟨rfl, rfl, rfl⟩

/-- C3 (counterexample): a stopped deployment whose machine still has
3600 seconds of paid time is destroyed — the 10-minute guard only
protects deployments in state up or starting. -/
theorem retirement_destroys_stopped_with_paid_time :
    retirementStep 0 []
        { name := "d2",
          machine := some { state := ResState.stopped, nextChargeTime := some 3600 } } =
      RetireAction.destroyAction
    ∧ 10 * 60 ≤ get_depl_time_left 0
        { name := "d2",
          machine := some { state := ResState.stopped, nextChargeTime := some 3600 } } := by
  constructor <;> decide

/-- C3 (amended): an expired deployment in state up or starting with at
least 10 minutes of paid time left is skipped: neither stopped nor
destroyed. -/
theorem retirement_skip_of_active_paid (now : Int)
    (st : List (String × TypeConfig)) (depl : Depl)
    (hstate : depl_state depl = ResState.up ∨ depl_state depl = ResState.starting)
    (htl : 10 * 60 ≤ get_depl_time_left now depl) :
    retirementStep now st depl = RetireAction.skip := by
  rw [retirementStep, if_pos ⟨hstate, htl⟩]

/-- Witness for `retirement_skip_of_active_paid`. -/
theorem retirement_skip_of_active_paid_witness :
    retirementStep 0 []
        { name := "d3",
          machine := some { state := ResState.up, nextChargeTime := some 700 } } =
      RetireAction.skip :=
  retirement_skip_of_active_paid 0 []
    { name := "d3",
      machine := some { state := ResState.up, nextChargeTime := some 700 } }
    (Or.inl (by decide)) (by decide)

/-- C10 (counterexample): `depl_state` does not report `missing`
precisely when no machine object exists — a present machine can itself
be in state `missing`. -/
theorem depl_state_missing_with_machine_present :
    depl_state { name := "d4", machine := some { state := ResState.missing } } =
      ResState.missing
    ∧ ({ name := "d4", machine := some { state := ResState.missing } } : Depl).machine ≠
        none := by
  constructor <;> decide

/-- C10 (amended): the retention pass reaches the machine-handle
dereference only for deployments in state up or starting; such a
deployment always has a machine object (`depl_state` yields `missing`
whenever the machine is absent, though a present machine may also
report `missing`), so the classification never hits the dereference
failure: it is total. -/
theorem retention_dereference_safe :
    (∀ (now : Int) (st : List (String × TypeConfig)) (status : RunStatus) (depl : Depl),
      (retentionClassify now st status depl).isSome = true)
    ∧ (∀ depl : Depl,
        depl_state depl = ResState.up ∨ depl_state depl = ResState.starting →
        depl.machine.isSome = true)
    ∧ (∀ depl : Depl, depl.machine = none → depl_state depl = ResState.missing) :=
  ⟨retentionClassify_isSome, machine_present_of_active,
    fun _ hm => by simp [depl_state, hm]⟩

/-- Witness for `retention_dereference_safe`. -/
theorem retention_dereference_safe_witness :
    (retentionClassify 0 [] { machineTypes := [], machines := [], uptime := 0 }
        { name := "w10" }).isSome = true
    ∧ ({ name := "w10b", machine := some { state := ResState.up } } : Depl).machine.isSome =
        true :=
  ⟨retention_dereference_safe.1 0 [] { machineTypes := [], machines := [], uptime := 0 }
      { name := "w10" },
    retention_dereference_safe.2.1
      { name := "w10b", machine := some { state := ResState.up } } (Or.inl (by decide))⟩

/-! ## Sizer lemmas -/

theorem ceil_div_spec (x p : Nat) (hp : 0 < p) :
    x ≤ (x + p - 1) / p * p ∧ ∀ w : Nat, x ≤ w * p → (x + p - 1) / p ≤ w := by
  constructor
  · have h1 := Nat.div_add_mod (x + p - 1) p
    have h2 : (x + p - 1) % p < p := Nat.mod_lt _ hp
    rw [Nat.mul_comm]
    omega
  · intro w hw
    have hlt : x + p - 1 < (w + 1) * p := by
      rw [Nat.succ_mul]
      omega
    have := (Nat.div_lt_iff_lt_mul hp).2 hlt
    omega

/-- C4: the sizer computes `wanted` as the exact ceiling of
`max(runnable - ignoredRunnables, 0) / runnablesPerMachine` (the least
non-negative machine count whose capacity covers the backlog) and
`allowed` as the clamp `min(max(wanted, minMachines), maxMachines)`; a
type present in policy but absent from status is sized with
`runnable = 0` and, under the policy invariants, its demand equals
`minMachines`. -/
theorem sizer_spec (tc : TypeConfig) (r : Int)
    (hper : 0 < tc.runnablesPerMachine.getD 10)
    (hign : 0 ≤ tc.ignoredRunnables.getD 0)
    (hmin : 0 ≤ tc.minMachines.getD 0)
    (hminmax : tc.minMachines.getD 0 ≤ tc.maxMachines.getD 1) :
    (max (r - tc.ignoredRunnables.getD 0) 0 ≤
        computeWanted r tc * tc.runnablesPerMachine.getD 10
      ∧ ∀ w : Int, 0 ≤ w →
          max (r - tc.ignoredRunnables.getD 0) 0 ≤ w * tc.runnablesPerMachine.getD 10 →
          computeWanted r tc ≤ w)
    ∧ computeAllowed r tc =
        min (max (computeWanted r tc) (tc.minMachines.getD 0)) (tc.maxMachines.getD 1)
    ∧ runnableOf none = 0
    ∧ computeAllowed (runnableOf none) tc = tc.minMachines.getD 0 := by
  set i := tc.ignoredRunnables.getD 0 with hi
  set p := tc.runnablesPerMachine.getD 10 with hp
  have hxnn : (0 : Int) ≤ max (r - i) 0 := le_max_right _ _
  have hxcast : ((max (r - i) 0).toNat : Int) = max (r - i) 0 := Int.toNat_of_nonneg hxnn
  have hpcast : (p.toNat : Int) = p := Int.toNat_of_nonneg hper.le
  have hppos : 0 < p.toNat := by omega
  obtain ⟨hle, hminq⟩ := ceil_div_spec (max (r - i) 0).toNat p.toNat hppos
  have hwdef : computeWanted r tc =
      ((((max (r - i) 0).toNat + p.toNat - 1) / p.toNat : Nat) : Int) := rfl
  refine ⟨⟨?_, ?_⟩, rfl, rfl, ?_⟩
  · rw [hwdef, ← hxcast, ← hpcast]
    exact_mod_cast hle
  · intro w hw hcap
    have hwcast : (w.toNat : Int) = w := Int.toNat_of_nonneg hw
    have hcapn : (max (r - i) 0).toNat ≤ w.toNat * p.toNat := by
      rw [← hxcast, ← hwcast, ← hpcast] at hcap
      exact_mod_cast hcap
    rw [hwdef, ← hwcast]
    exact_mod_cast hminq w.toNat hcapn
  · have hmax : max (runnableOf none - i) 0 = 0 :=
      max_eq_right (by simp only [runnableOf]; omega)
    have hw0 : computeWanted (runnableOf none) tc = 0 := by
      rw [computeWanted, wantedMachines, ← hi, ← hp, hmax]
      simp only [Int.toNat_zero, Nat.zero_add]
      rw [Nat.div_eq_of_lt (by omega)]
      rfl
    rw [computeAllowed, hw0, max_eq_right hmin, min_eq_left hminmax]

/-- Witness for `sizer_spec`: policy with 10 runnables per machine, 5
ignored runnables, min 1 and max 3 machines, at a backlog of 25. -/
theorem sizer_spec_witness :
    max ((25 : Int) -
        (TypeConfig.ignoredRunnables
          { ignoredRunnables := some 5, runnablesPerMachine := some 10,
            minMachines := some 1, maxMachines := some 3 }).getD 0) 0 ≤
      computeWanted 25
          { ignoredRunnables := some 5, runnablesPerMachine := some 10,
            minMachines := some 1, maxMachines := some 3 } *
        (TypeConfig.runnablesPerMachine
          { ignoredRunnables := some 5, runnablesPerMachine := some 10,
            minMachines := some 1, maxMachines := some 3 }).getD 0
    ∧ computeAllowed (runnableOf none)
          { ignoredRunnables := some 5, runnablesPerMachine := some 10,
            minMachines := some 1, maxMachines := some 3 } =
        (TypeConfig.minMachines
          { ignoredRunnables := some 5, runnablesPerMachine := some 10,
            minMachines := some 1, maxMachines := some 3 }).getD 0 :=
  ⟨(sizer_spec
      { ignoredRunnables := some 5, runnablesPerMachine := some 10,
        minMachines := some 1, maxMachines := some 3 } 25
      (by decide) (by decide) (by decide) (by decide)).1.1,
    (sizer_spec
      { ignoredRunnables := some 5, runnablesPerMachine := some 10,
        minMachines := some 1, maxMachines := some 3 } 25
      (by decide) (by decide) (by decide) (by decide)).2.2.2⟩

/-! ## Selection-loop lemmas -/

theorem selLoop_created_le (allowed : Nat) (tag tn : String) :
    ∀ (fuel : Nat) (s : SelState),
      (selLoop allowed tag tn fuel s).created ≤ s.created + 1 := by
  intro fuel
  induction fuel with
  | zero => intro s; simp [selLoop]
  | succ f ih =>
    intro s
    obtain ⟨ex, dp, iu, nh, c⟩ := s
    by_cases hlt : nh < allowed
    · cases ex with
      | nil =>
        simp only [selLoop]
        rw [if_pos hlt, if_pos (by omega : (1 : Nat) ≤ c + 1)]
      | cons d rest =>
        simp only [selLoop]
        rw [if_pos hlt]
        by_cases hup : depl_state d = ResState.up
        · rw [if_pos hup]
          by_cases hup' : depl_state (runCheck d) = ResState.up
          · rw [if_pos hup']
            by_cases hc : (1 : Nat) ≤ c
            · rw [if_pos hc]
              exact Nat.le_succ c
            · rw [if_neg hc]
              exact ih _
          · rw [if_neg hup']
            exact ih _
        · rw [if_neg hup]
          by_cases hmiss : depl_state d = ResState.missing
          · rw [if_pos hmiss]
            exact ih _
          · rw [if_neg hmiss]
            by_cases hc : (1 : Nat) ≤ c
            · rw [if_pos hc]
              exact Nat.le_succ c
            · rw [if_neg hc]
              exact ih _
    · simp only [selLoop]
      rw [if_neg hlt]
      exact Nat.le_succ c

theorem selLoop_create_stops (allowed : Nat) (tag tn : String) (fuel : Nat)
    (s : SelState) (hex : s.existing = []) (hlt : s.nHave < allowed) :
    (selLoop allowed tag tn (fuel + 1) s).created = s.created + 1
    ∧ (selLoop allowed tag tn (fuel + 1) s).nHave = s.nHave + 1 := by
  rw [selLoop, if_pos hlt, hex]
  rw [if_pos (by omega : 1 ≤ s.created + 1)]
  exact ⟨rfl, rfl⟩

/-- C5: starting a type's selection loop with no creations yet, at most
one deployment is ever created (for every fuel, i.e. every number of
iterations), and once the pool is empty and a deployment is created the
loop stops immediately: the counters advance by exactly one regardless
of the remaining fuel, even when `have` is still below `allowed`. -/
theorem selection_creates_at_most_one (allowed : Nat) (tag tn : String)
    (s : SelState) (h0 : s.created = 0) :
    (∀ fuel, (selLoop allowed tag tn fuel s).created ≤ 1)
    ∧ (s.existing = [] → s.nHave < allowed →
        ∀ fuel, (selLoop allowed tag tn (fuel + 1) s).created = 1
          ∧ (selLoop allowed tag tn (fuel + 1) s).nHave = s.nHave + 1) := by
  constructor
  · intro fuel
    have := selLoop_created_le allowed tag tn fuel s
    omega
  · intro hex hlt fuel
    have h := selLoop_create_stops allowed tag tn fuel s hex hlt
    exact ⟨by omega, h.2⟩

/-- Witness for `selection_creates_at_most_one`: an empty pool with
demand 3 creates exactly one deployment in this run even with plenty of
fuel left. -/
theorem selection_creates_at_most_one_witness :
    (selLoop 3 "hydra-provisioned" "x86_64-linux:" 50
        { existing := [], depls := [], inUse := [], nHave := 0, created := 0 }).created = 1
    ∧ (selLoop 3 "hydra-provisioned" "x86_64-linux:" 50
        { existing := [], depls := [], inUse := [], nHave := 0, created := 0 }).nHave =
      SelState.nHave
          { existing := [], depls := [], inUse := [], nHave := 0, created := 0 } + 1 :=
  (selection_creates_at_most_one 3 "hydra-provisioned" "x86_64-linux:"
      { existing := [], depls := [], inUse := [], nHave := 0, created := 0 } rfl).2
    rfl (by decide) 49

/-! ## Deployment naming (claim C6) -/

/-- The index the allocator settles on at the creation call site. -/
def freeIdxOf (tag : String) (all_depls : List Depl) : Nat :=
  findFreeIdx tag ((taggedDepls tag all_depls).map (fun d => d.name))
    (((taggedDepls tag all_depls).map (fun d => d.name)).length + 1) 0

/-- C6 (counterexample): the allocator checks the candidate name only
against the tag-filtered inventory.  With an existing deployment named
`hydra-provisioned-0` whose tag is `other`, the controller allocates the
very same name, colliding with that deployment. -/
theorem creation_name_collides_across_tags :
    creation_name "hydra-provisioned"
        [{ name := "hydra-provisioned-0", args := [("tag", "other")] }] =
      "hydra-provisioned-0"
    ∧ "hydra-provisioned-0" ∈
        ([{ name := "hydra-provisioned-0", args := [("tag", "other")] }] :
            List Depl).map (fun d => d.name) := by
  constructor <;> decide

/-- C6 (amended): every created deployment name has the form
`tag ++ "-" ++ str(n)` with `n` the smallest non-negative integer whose
candidate name is unused among the deployments carrying the
controller's tag, and the created name never collides with a
tag-matching deployment (it may collide with a deployment carrying a
different tag, as the counterexample shows). -/
theorem creation_name_least_among_tagged (tag : String) (all_depls : List Depl) :
    creation_name tag all_depls = tag ++ "-" ++ Nat.repr (freeIdxOf tag all_depls)
    ∧ creation_name tag all_depls ∉ (taggedDepls tag all_depls).map (fun d => d.name)
    ∧ ∀ m, m < freeIdxOf tag all_depls →
        (tag ++ "-" ++ Nat.repr m) ∈ (taggedDepls tag all_depls).map (fun d => d.name) := by
  refine ⟨rfl, ?_, ?_⟩
  · show (tag ++ "-" ++ Nat.repr (freeIdxOf tag all_depls)) ∉
      (taggedDepls tag all_depls).map (fun d => d.name)
    rcases findFreeIdx_free_or_max tag
        ((taggedDepls tag all_depls).map (fun d => d.name))
        (((taggedDepls tag all_depls).map (fun d => d.name)).length + 1) 0 with hfree | hmax
    · exact hfree
    · exfalso
      obtain ⟨j, hj, hfree⟩ :=
        exists_free_name tag ((taggedDepls tag all_depls).map (fun d => d.name))
      refine hfree (findFreeIdx_taken_below tag
        ((taggedDepls tag all_depls).map (fun d => d.name))
        (((taggedDepls tag all_depls).map (fun d => d.name)).length + 1) 0 j
        (Nat.zero_le j) ?_)
      omega
  · intro m hm
    exact findFreeIdx_taken_below tag
      ((taggedDepls tag all_depls).map (fun d => d.name))
      (((taggedDepls tag all_depls).map (fun d => d.name)).length + 1) 0 m
      (Nat.zero_le m) hm

/-- Witness for `creation_name_least_among_tagged`: with one existing
tagged deployment named `t-0`, the allocator yields `t-1`, which does
not collide with the tagged inventory. -/
theorem creation_name_least_among_tagged_witness :
    creation_name "t" [{ name := "t-0", args := [("tag", "t")] }] =
      "t" ++ "-" ++ Nat.repr (freeIdxOf "t" [{ name := "t-0", args := [("tag", "t")] }])
    ∧ creation_name "t" [{ name := "t-0", args := [("tag", "t")] }] ∉
        (taggedDepls "t" [{ name := "t-0", args := [("tag", "t")] }]).map
          (fun d => d.name) :=
  ⟨(creation_name_least_among_tagged "t" [{ name := "t-0", args := [("tag", "t")] }]).1,
    (creation_name_least_among_tagged "t" [{ name := "t-0", args := [("tag", "t")] }]).2.1⟩

/-! ## Roster emission (claim C7) -/

theorem rosterColumns_shape (st : List (String × TypeConfig)) (depl : Depl)
    (cols : List String) (h : rosterColumns st depl = some cols) :
    cols.length = 8 ∧ (∀ c ∈ cols, c ≠ "")
    ∧ ∃ m tc, depl.machine = some m
        ∧ lookupA st (get_depl_arg depl "type" "") = some tc
        ∧ cols =
          [ "root@" ++ m.sshName
          , joinStrs "," (rosterSystems (get_depl_arg depl "type" ""))
          , tc.sshKey.getD "-"
          , toString (tc.maxJobs.getD 1)
          , toString (tc.speedFactor.getD 1)
          , if featuresList (get_depl_arg depl "type" "") = [] then "-"
            else joinStrs "," (featuresList (get_depl_arg depl "type" ""))
          , if featuresList (get_depl_arg depl "type" "") = [] then "-"
            else joinStrs "," (featuresList (get_depl_arg depl "type" ""))
          , if m.publicHostKey = [] then "-" else String.mk (b64encode m.publicHostKey) ] := by
  cases hm : depl.machine with
  | none => simp [rosterColumns, hm] at h
  | some m =>
    cases hlk : lookupA st (get_depl_arg depl "type" "") with
    | none => simp [rosterColumns, hm, hlk] at h
    | some tc =>
      simp only [rosterColumns, hm, hlk] at h
      by_cases hall :
          ([ "root@" ++ m.sshName
           , joinStrs "," (rosterSystems (get_depl_arg depl "type" ""))
           , tc.sshKey.getD "-"
           , toString (tc.maxJobs.getD 1)
           , toString (tc.speedFactor.getD 1)
           , if featuresList (get_depl_arg depl "type" "") = [] then "-"
             else joinStrs "," (featuresList (get_depl_arg depl "type" ""))
           , if featuresList (get_depl_arg depl "type" "") = [] then "-"
             else joinStrs "," (featuresList (get_depl_arg depl "type" ""))
           , if m.publicHostKey = [] then "-"
             else String.mk (b64encode m.publicHostKey) ].all
            (fun c => decide (c ≠ ""))) = true
      · rw [if_pos hall] at h
        have hcols := Option.some.inj h
        subst hcols
        refine ⟨rfl, ?_, m, tc, rfl, rfl, rfl⟩
        intro c hc
        have := List.all_eq_true.1 hall c hc
        simpa using this
      · rw [if_neg hall] at h
        cases h

/-- C7: a deployment contributes a roster line exactly when it is in
`deployed` and not in `unusable` (the emitted list is in one-to-one
order-preserving correspondence with that filter, so with a duplicate-
free `deployed` each such deployment contributes exactly one line); each
line is the space-join of exactly eight non-empty columns, in the
source's order, followed by a newline. -/
theorem roster_lines_spec (st : List (String × TypeConfig))
    (deployed unusable : List Depl) (L : List String)
    (h : rosterLines st deployed unusable = some L) :
    List.Forall₂ (fun d l => ∃ cols, rosterColumns st d = some cols
        ∧ cols.length = 8 ∧ (∀ c ∈ cols, c ≠ "") ∧ l = joinStrs " " cols ++ "\n")
      (deployed.filter (fun d => decide (d ∉ unusable))) L
    ∧ (deployed.Nodup → (deployed.filter (fun d => decide (d ∉ unusable))).Nodup)
    ∧ (∀ (d : Depl) (cols : List String), rosterColumns st d = some cols →
        ∃ m tc, d.machine = some m
          ∧ lookupA st (get_depl_arg d "type" "") = some tc
          ∧ cols =
            [ "root@" ++ m.sshName
            , joinStrs "," (rosterSystems (get_depl_arg d "type" ""))
            , tc.sshKey.getD "-"
            , toString (tc.maxJobs.getD 1)
            , toString (tc.speedFactor.getD 1)
            , if featuresList (get_depl_arg d "type" "") = [] then "-"
              else joinStrs "," (featuresList (get_depl_arg d "type" ""))
            , if featuresList (get_depl_arg d "type" "") = [] then "-"
              else joinStrs "," (featuresList (get_depl_arg d "type" ""))
            , if m.publicHostKey = [] then "-"
              else String.mk (b64encode m.publicHostKey) ]) := by
  refine ⟨?_, fun hnd => hnd.filter _, fun d cols hc => (rosterColumns_shape st d cols hc).2.2⟩
  have h2 := optionMapList_forall₂ _ _ _ h
  refine List.Forall₂.imp ?_ h2
  intro d l hdl
  cases hc : rosterColumns st d with
  | none => rw [hc] at hdl; cases hdl
  | some cols =>
    rw [hc] at hdl
    obtain ⟨hlen, hne, _⟩ := rosterColumns_shape st d cols hc
    refine ⟨cols, rfl, hlen, hne, ?_⟩
    have : some (machineLine cols) = some l := hdl
    rw [machineLine] at this
    exact (Option.some.inj this).symm

/-- Witness for `roster_lines_spec` at a concrete run: one deployed
worker of type `x86_64-linux:big`, nothing unusable. -/
theorem roster_lines_spec_witness :
    List.Forall₂ (fun d l => ∃ cols,
        rosterColumns [("x86_64-linux:big", {})] d = some cols
        ∧ cols.length = 8 ∧ (∀ c ∈ cols, c ≠ "") ∧ l = joinStrs " " cols ++ "\n")
      (([{ name := "w7", args := [("type", "x86_64-linux:big")],
           machine := some { state := ResState.up, sshName := "h1",
                             publicHostKey := [1, 2, 3] } }] : List Depl).filter
        (fun d => decide (d ∉ ([] : List Depl))))
      ((rosterLines [("x86_64-linux:big", {})]
          [{ name := "w7", args := [("type", "x86_64-linux:big")],
             machine := some { state := ResState.up, sshName := "h1",
                               publicHostKey := [1, 2, 3] } }] []).getD []) :=
  (roster_lines_spec [("x86_64-linux:big", {})]
      [{ name := "w7", args := [("type", "x86_64-linux:big")],
         machine := some { state := ResState.up, sshName := "h1",
                           publicHostKey := [1, 2, 3] } }] [] _ rfl).1

/-! ## Replacement lemmas for the architecture fold -/

theorem pyReplace_i686_data (k : String) (h : pyStartsWith k "i686-linux" = true) :
    ∃ z, (pyReplace k "i686-linux" "x86_64-linux").data = "x86_64-linux".data ++ z := by
  obtain ⟨t, ht⟩ := leadsWith_exists (h : leadsWith "i686-linux".data k.data = true)
  have hp : "i686-linux".data = 'i' :: "686-linux".data := by decide
  have hk : k.data = 'i' :: ("686-linux".data ++ t) := by
    rw [ht, hp, List.cons_append]
  have hcond : (!"i686-linux".data.isEmpty &&
      leadsWith "i686-linux".data ('i' :: ("686-linux".data ++ t))) = true := by
    rw [hp, ← List.cons_append, leadsWith_append]
    simp
  refine ⟨replaceCharsF "i686-linux".data "x86_64-linux".data
      ("686-linux".data ++ t).length
      (("686-linux".data ++ t).drop ("i686-linux".data.length - 1)), ?_⟩
  rw [show pyReplace k "i686-linux" "x86_64-linux" =
      String.mk (replaceCharsF "i686-linux".data "x86_64-linux".data
        k.data.length k.data) from rfl, hk]
  show replaceCharsF "i686-linux".data "x86_64-linux".data
      ('i' :: ("686-linux".data ++ t)).length ('i' :: ("686-linux".data ++ t)) = _
  rw [List.length_cons]
  simp only [replaceCharsF]
  rw [if_pos hcond]

theorem pyReplace_i686_not_i686 (k : String)
    (h : pyStartsWith k "i686-linux" = true) :
    pyStartsWith (pyReplace k "i686-linux" "x86_64-linux") "i686-linux" = false := by
  obtain ⟨z, hz⟩ := pyReplace_i686_data k h
  rw [pyStartsWith, hz]
  have hx : "x86_64-linux".data ++ z = 'x' :: ("86_64-linux".data ++ z) := rfl
  rw [hx]
  have hd : decide (('i' : Char) = 'x') = false := by decide
  show (decide (('i' : Char) = 'x') &&
      leadsWith "686-linux".data ("86_64-linux".data ++ z)) = false
  rw [hd, Bool.false_and]

theorem pyReplace_i686_ne (k : String) (h : pyStartsWith k "i686-linux" = true) :
    pyReplace k "i686-linux" "x86_64-linux" ≠ k := by
  intro he
  have h2 := pyReplace_i686_not_i686 k h
  rw [he, h] at h2
  cases h2

/-! ## Folding lemmas -/

theorem keysOf_bumpRunnable (mt : List (String × TypeStatus)) (k : String) (add : Int) :
    keysOf (bumpRunnable mt k add) = keysOf mt := by
  induction mt with
  | nil => rfl
  | cons p rest ih =>
    have hh : (if p.1 = k then (p.1, { p.2 with runnable := p.2.runnable + add }) else p).1
        = p.1 := by
      by_cases hp : p.1 = k <;> simp [hp]
    calc keysOf (bumpRunnable (p :: rest) k add)
        = (if p.1 = k then (p.1, { p.2 with runnable := p.2.runnable + add }) else p).1 ::
            keysOf (bumpRunnable rest k add) := rfl
      _ = p.1 :: keysOf rest := by rw [hh, ih]
      _ = keysOf (p :: rest) := rfl

theorem bumpRunnable_not_mem (mt : List (String × TypeStatus)) (k : String) (add : Int)
    (h : k ∉ keysOf mt) : bumpRunnable mt k add = mt := by
  induction mt with
  | nil => rfl
  | cons p rest ih =>
    simp only [keysOf, List.map_cons, List.mem_cons] at h
    push_neg at h
    have hp : ¬ p.1 = k := fun hq => h.1 hq.symm
    have hr : k ∉ keysOf rest := h.2
    simp only [bumpRunnable, List.map_cons, if_neg hp]
    rw [show List.map (fun p => if p.1 = k then
        (p.1, { p.2 with runnable := p.2.runnable + add }) else p) rest =
        bumpRunnable rest k add from rfl, ih hr]

theorem lookupA_bumpRunnable_self (mt : List (String × TypeStatus)) (k : String)
    (add : Int) :
    lookupA (bumpRunnable mt k add) k =
      (lookupA mt k).map (fun w => { w with runnable := w.runnable + add }) := by
  induction mt with
  | nil => rfl
  | cons p rest ih =>
    by_cases hp : p.1 = k
    · simp [bumpRunnable, lookupA, hp]
    · simp only [bumpRunnable, List.map_cons, if_neg hp, lookupA]
      exact ih

theorem lookupA_bumpRunnable_ne (mt : List (String × TypeStatus)) (k : String)
    (add : Int) {k' : String} (h : k' ≠ k) :
    lookupA (bumpRunnable mt k add) k' = lookupA mt k' := by
  induction mt with
  | nil => rfl
  | cons p rest ih =>
    by_cases hp : p.1 = k
    · have hp' : ¬ p.1 = k' := fun hq => h (hq ▸ hp)
      simp only [bumpRunnable, List.map_cons, if_pos hp, lookupA]
      rw [if_neg hp', if_neg hp']
      exact ih
    · simp only [bumpRunnable, List.map_cons, if_neg hp, lookupA]
      by_cases hq : p.1 = k'
      · rw [if_pos hq, if_pos hq]
      · rw [if_neg hq, if_neg hq]
        exact ih

theorem runSum_append (l₁ l₂ : List (String × TypeStatus)) :
    runSum (l₁ ++ l₂) = runSum l₁ + runSum l₂ := by
  simp [runSum]

theorem runSum_bumpRunnable (mt : List (String × TypeStatus)) (k : String)
    (add : Int) (w : TypeStatus) (hl : lookupA mt k = some w)
    (hnd : (keysOf mt).Nodup) :
    runSum (bumpRunnable mt k add) = runSum mt + add := by
  induction mt with
  | nil => cases hl
  | cons p rest ih =>
    simp only [keysOf, List.map_cons, List.nodup_cons] at hnd
    obtain ⟨hpn, hndr⟩ := hnd
    by_cases hp : p.1 = k
    · have hbr : bumpRunnable rest k add = rest :=
        bumpRunnable_not_mem rest k add (by rw [← hp]; exact hpn)
      simp only [bumpRunnable, List.map_cons, if_pos hp]
      rw [show List.map (fun p => if p.1 = k then
          (p.1, { p.2 with runnable := p.2.runnable + add }) else p) rest =
          bumpRunnable rest k add from rfl, hbr]
      simp [runSum]
      ring
    · have hlr : lookupA rest k = some w := by
        rw [lookupA, if_neg hp] at hl
        exact hl
      simp only [bumpRunnable, List.map_cons, if_neg hp]
      rw [show List.map (fun p => if p.1 = k then
          (p.1, { p.2 with runnable := p.2.runnable + add }) else p) rest =
          bumpRunnable rest k add from rfl]
      simp only [runSum, List.map_cons, List.sum_cons]
      have := ih hlr hndr
      simp only [runSum] at this
      omega

theorem runSum_eraseKey (mt : List (String × TypeStatus)) (k : String)
    (v : TypeStatus) (hl : lookupA mt k = some v) :
    runSum (eraseKey mt k) + v.runnable = runSum mt := by
  induction mt with
  | nil => cases hl
  | cons p rest ih =>
    by_cases hp : p.1 = k
    · rw [lookupA, if_pos hp] at hl
      have hv : v = p.2 := (Option.some.inj hl).symm
      subst hv
      rw [eraseKey, if_pos hp]
      simp [runSum]
      ring
    · rw [lookupA, if_neg hp] at hl
      rw [eraseKey, if_neg hp]
      simp only [runSum, List.map_cons, List.sum_cons]
      have := ih hl
      simp only [runSum] at this
      omega

theorem foldStep_runSum (mt : List (String × TypeStatus)) (k : String)
    (hnd : (keysOf mt).Nodup) : runSum (foldStep mt k) = runSum mt := by
  by_cases hsw : pyStartsWith k "i686-linux" = true
  · cases hts : lookupA mt k with
    | none => simp [foldStep, hsw, hts]
    | some ts =>
      have hkne : k ≠ pyReplace k "i686-linux" "x86_64-linux" :=
        fun hq => pyReplace_i686_ne k hsw hq.symm
      cases htg : lookupA mt (pyReplace k "i686-linux" "x86_64-linux") with
      | some w =>
        have hfs : foldStep mt k =
            eraseKey (bumpRunnable mt (pyReplace k "i686-linux" "x86_64-linux")
              ts.runnable) k := by
          simp [foldStep, hsw, hts, htg]
        have h1 : lookupA (bumpRunnable mt (pyReplace k "i686-linux" "x86_64-linux")
            ts.runnable) k = some ts := by
          rw [lookupA_bumpRunnable_ne _ _ _ hkne]
          exact hts
        have h2 := runSum_eraseKey _ k ts h1
        have h3 := runSum_bumpRunnable mt (pyReplace k "i686-linux" "x86_64-linux")
          ts.runnable w htg hnd
        rw [hfs]
        omega
      | none =>
        have hkmem : k ∈ keysOf mt := by
          by_contra hk
          rw [(lookupA_none_iff mt k).2 hk] at hts
          cases hts
        have hfs : foldStep mt k =
            eraseKey (mt ++ [(pyReplace k "i686-linux" "x86_64-linux", ts)]) k := by
          simp [foldStep, hsw, hts, htg]
        rw [hfs, eraseKey_append_left mt _ k hkmem, runSum_append]
        have h2 := runSum_eraseKey mt k ts hts
        have h4 : runSum [(pyReplace k "i686-linux" "x86_64-linux", ts)] = ts.runnable := by
          simp [runSum]
        omega
  · simp [foldStep, hsw]

theorem foldStep_nodup (mt : List (String × TypeStatus)) (k : String)
    (hnd : (keysOf mt).Nodup) : (keysOf (foldStep mt k)).Nodup := by
  by_cases hsw : pyStartsWith k "i686-linux" = true
  · cases hts : lookupA mt k with
    | none => simpa [foldStep, hsw, hts] using hnd
    | some ts =>
      cases htg : lookupA mt (pyReplace k "i686-linux" "x86_64-linux") with
      | some w =>
        have hfs : foldStep mt k =
            eraseKey (bumpRunnable mt (pyReplace k "i686-linux" "x86_64-linux")
              ts.runnable) k := by
          simp [foldStep, hsw, hts, htg]
        rw [hfs]
        have hsub : (keysOf (eraseKey (bumpRunnable mt
            (pyReplace k "i686-linux" "x86_64-linux") ts.runnable) k)).Sublist
            (keysOf (bumpRunnable mt (pyReplace k "i686-linux" "x86_64-linux")
              ts.runnable)) :=
          List.Sublist.map _ (eraseKey_sublist _ _)
        refine hsub.nodup ?_
        rw [keysOf_bumpRunnable]
        exact hnd
      | none =>
        have hfs : foldStep mt k =
            eraseKey (mt ++ [(pyReplace k "i686-linux" "x86_64-linux", ts)]) k := by
          simp [foldStep, hsw, hts, htg]
        rw [hfs]
        have htn : pyReplace k "i686-linux" "x86_64-linux" ∉ keysOf mt :=
          (lookupA_none_iff mt _).1 htg
        have happ : (keysOf (mt ++ [(pyReplace k "i686-linux" "x86_64-linux", ts)])).Nodup := by
          have hkeq : keysOf (mt ++ [(pyReplace k "i686-linux" "x86_64-linux", ts)]) =
              keysOf mt ++ [pyReplace k "i686-linux" "x86_64-linux"] := by
            simp [keysOf]
          rw [hkeq, List.nodup_append]
          refine ⟨hnd, List.nodup_singleton _, ?_⟩
          intro a ha hb
          rw [List.mem_singleton] at hb
          subst hb
          exact htn ha
        exact (List.Sublist.map _ (eraseKey_sublist _ _)).nodup happ
  · simpa [foldStep, hsw] using hnd

theorem foldl_foldStep_invariant (ks : List String) :
    ∀ (mt : List (String × TypeStatus)), (keysOf mt).Nodup →
      runSum (List.foldl foldStep mt ks) = runSum mt
      ∧ (keysOf (List.foldl foldStep mt ks)).Nodup := by
  induction ks with
  | nil => intro mt h; exact ⟨rfl, h⟩
  | cons k ks ih =>
    intro mt h
    obtain ⟨ha, hb⟩ := ih (foldStep mt k) (foldStep_nodup mt k h)
    rw [List.foldl_cons]
    exact ⟨by rw [ha, foldStep_runSum mt k h], hb⟩

theorem foldl_no_i686 (ks : List String) :
    ∀ (mt : List (String × TypeStatus)), (keysOf mt).Nodup →
      (∀ k', k' ∈ keysOf mt → pyStartsWith k' "i686-linux" = true → k' ∈ ks) →
      ∀ k' ∈ keysOf (List.foldl foldStep mt ks),
        pyStartsWith k' "i686-linux" = false := by
  induction ks with
  | nil =>
    intro mt hnd hcover k' hk'
    cases hB : pyStartsWith k' "i686-linux" with
    | false => rfl
    | true =>
      simp only [List.foldl_nil] at hk'
      exact absurd (hcover k' hk' hB) (List.not_mem_nil _)
  | cons k ks ih =>
    intro mt hnd hcover
    rw [List.foldl_cons]
    apply ih (foldStep mt k) (foldStep_nodup mt k hnd)
    intro k' hk' hi
    by_cases hsw : pyStartsWith k "i686-linux" = true
    · cases hts : lookupA mt k with
      | none =>
        have hmt : foldStep mt k = mt := by simp [foldStep, hsw, hts]
        rw [hmt] at hk'
        have hkmem : k ∉ keysOf mt := (lookupA_none_iff mt k).1 hts
        rcases List.mem_cons.1 (hcover k' hk' hi) with heq | hks
        · exact absurd (heq ▸ hk') hkmem
        · exact hks
      | some ts =>
        cases htg : lookupA mt (pyReplace k "i686-linux" "x86_64-linux") with
        | some w =>
          have hfs : foldStep mt k =
              eraseKey (bumpRunnable mt (pyReplace k "i686-linux" "x86_64-linux")
                ts.runnable) k := by
            simp [foldStep, hsw, hts, htg]
          rw [hfs] at hk'
          have hnd2 : (keysOf (bumpRunnable mt
              (pyReplace k "i686-linux" "x86_64-linux") ts.runnable)).Nodup := by
            rw [keysOf_bumpRunnable]; exact hnd
          have hne : k' ≠ k :=
            fun heq => not_mem_keys_eraseKey_self hnd2 (heq ▸ hk')
          have hk2 : k' ∈ keysOf mt := by
            have := mem_keys_eraseKey hk'
            rwa [keysOf_bumpRunnable] at this
          rcases List.mem_cons.1 (hcover k' hk2 hi) with heq | hks
          · exact absurd heq hne
          · exact hks
        | none =>
          have hfs : foldStep mt k =
              eraseKey (mt ++ [(pyReplace k "i686-linux" "x86_64-linux", ts)]) k := by
            simp [foldStep, hsw, hts, htg]
          rw [hfs] at hk'
          have htn : pyReplace k "i686-linux" "x86_64-linux" ∉ keysOf mt :=
            (lookupA_none_iff mt _).1 htg
          have hkeq : keysOf (mt ++ [(pyReplace k "i686-linux" "x86_64-linux", ts)]) =
              keysOf mt ++ [pyReplace k "i686-linux" "x86_64-linux"] := by
            simp [keysOf]
          have hnd2 : (keysOf (mt ++
              [(pyReplace k "i686-linux" "x86_64-linux", ts)])).Nodup := by
            rw [hkeq, List.nodup_append]
            refine ⟨hnd, List.nodup_singleton _, ?_⟩
            intro a ha hb
            rw [List.mem_singleton] at hb
            subst hb
            exact htn ha
          have hne : k' ≠ k :=
            fun heq => not_mem_keys_eraseKey_self hnd2 (heq ▸ hk')
          have hk2 := mem_keys_eraseKey hk'
          rw [hkeq, List.mem_append] at hk2
          rcases hk2 with hk2 | hk2
          · rcases List.mem_cons.1 (hcover k' hk2 hi) with heq | hks
            · exact absurd heq hne
            · exact hks
          · rw [List.mem_singleton] at hk2
            subst hk2
            rw [pyReplace_i686_not_i686 k hsw] at hi
            cases hi
    · have hmt : foldStep mt k = mt := by simp [foldStep, hsw]
      rw [hmt] at hk'
      rcases List.mem_cons.1 (hcover k' hk' hi) with heq | hks
      · subst heq
        exact absurd hi hsw
      · exact hks

/-! ## Architecture folding (claim C8) -/

/-- C8: after the folding loop no machine-type key beginning with
`i686-linux` remains and the total runnable count is preserved; one
folding step on an `i686-linux...` key sums its runnable count into the
`x86_64-linux` replacement when that target exists and renames the
entry to the target otherwise, deleting the original key in both cases;
and the roster emission re-appends `i686-linux` to a line's systems
list exactly when that list contains `x86_64-linux` but not
`i686-linux`, so the folded identifier is recovered. -/
theorem arch_folding_spec :
    (∀ mt : List (String × TypeStatus), (keysOf mt).Nodup →
        (∀ k ∈ keysOf (foldArchs mt), pyStartsWith k "i686-linux" = false)
        ∧ runSum (foldArchs mt) = runSum mt)
    ∧ (∀ (mt : List (String × TypeStatus)) (k : String) (ts w : TypeStatus),
        (keysOf mt).Nodup → pyStartsWith k "i686-linux" = true →
        lookupA mt k = some ts →
        lookupA mt (pyReplace k "i686-linux" "x86_64-linux") = some w →
        lookupA (foldStep mt k) (pyReplace k "i686-linux" "x86_64-linux") =
            some { w with runnable := w.runnable + ts.runnable }
          ∧ lookupA (foldStep mt k) k = none)
    ∧ (∀ (mt : List (String × TypeStatus)) (k : String) (ts : TypeStatus),
        (keysOf mt).Nodup → pyStartsWith k "i686-linux" = true →
        lookupA mt k = some ts →
        lookupA mt (pyReplace k "i686-linux" "x86_64-linux") = none →
        lookupA (foldStep mt k) (pyReplace k "i686-linux" "x86_64-linux") = some ts
          ∧ lookupA (foldStep mt k) k = none)
    ∧ (∀ t : String, "x86_64-linux" ∈ systemsListRaw t →
        ("i686-linux" ∈ rosterSystems t
          ∧ ("i686-linux" ∉ systemsListRaw t →
              rosterSystems t = systemsListRaw t ++ ["i686-linux"]))) := by
  refine ⟨?_, ?_, ?_, ?_⟩
  · intro mt hnd
    refine ⟨?_, (foldl_foldStep_invariant (keysOf mt) mt hnd).1⟩
    exact foldl_no_i686 (keysOf mt) mt hnd (fun k' hk' _ => hk')
  · intro mt k ts w hnd hsw hts htg
    have hne : pyReplace k "i686-linux" "x86_64-linux" ≠ k := pyReplace_i686_ne k hsw
    have hfs : foldStep mt k =
        eraseKey (bumpRunnable mt (pyReplace k "i686-linux" "x86_64-linux")
          ts.runnable) k := by
      simp [foldStep, hsw, hts, htg]
    have hnd2 : (keysOf (bumpRunnable mt
        (pyReplace k "i686-linux" "x86_64-linux") ts.runnable)).Nodup := by
      rw [keysOf_bumpRunnable]; exact hnd
    constructor
    · rw [hfs, lookupA_eraseKey_ne _ hne, lookupA_bumpRunnable_self, htg]
      rfl
    · rw [hfs, lookupA_eraseKey_self _ _ hnd2]
  · intro mt k ts hnd hsw hts htg
    have hne : pyReplace k "i686-linux" "x86_64-linux" ≠ k := pyReplace_i686_ne k hsw
    have hkmem : k ∈ keysOf mt := by
      by_contra hk
      rw [(lookupA_none_iff mt k).2 hk] at hts
      cases hts
    have hfs : foldStep mt k =
        eraseKey (mt ++ [(pyReplace k "i686-linux" "x86_64-linux", ts)]) k := by
      simp [foldStep, hsw, hts, htg]
    rw [hfs, eraseKey_append_left mt _ k hkmem]
    constructor
    · rw [lookupA_append, lookupA_eraseKey_ne _ hne, htg]
      simp [lookupA]
    · rw [lookupA_append, lookupA_eraseKey_self _ _ hnd]
      simp [lookupA, fun hq : pyReplace k "i686-linux" "x86_64-linux" = k => hne hq]
  · intro t hx86
    by_cases hc : "x86_64-linux" ∈ systemsListRaw t ∧ "i686-linux" ∉ systemsListRaw t
    · rw [rosterSystems, if_pos hc]
      exact ⟨List.mem_append_right _ (List.mem_singleton_self _), fun _ => rfl⟩
    · have hi : "i686-linux" ∈ systemsListRaw t := by
        by_contra hni
        exact hc ⟨hx86, hni⟩
      rw [rosterSystems, if_neg hc]
      exact ⟨hi, fun hni => absurd hi hni⟩

/-- Witness for `arch_folding_spec` on a concrete status table with an
`i686-linux:` entry folding into an existing `x86_64-linux:` entry. -/
theorem arch_folding_spec_witness :
    runSum (foldArchs [("i686-linux:", { runnable := 7 }),
        ("x86_64-linux:", { runnable := 3 })]) =
      runSum [("i686-linux:", { runnable := 7 }),
        ("x86_64-linux:", { runnable := 3 })]
    ∧ lookupA (foldStep [("i686-linux:", { runnable := 7 }),
          ("x86_64-linux:", { runnable := 3 })] "i686-linux:") "i686-linux:" = none
    ∧ "i686-linux" ∈ rosterSystems "x86_64-linux:" :=
  ⟨(arch_folding_spec.1 [("i686-linux:", { runnable := 7 }),
        ("x86_64-linux:", { runnable := 3 })] (by decide)).2,
    (arch_folding_spec.2.1 [("i686-linux:", { runnable := 7 }),
        ("x86_64-linux:", { runnable := 3 })] "i686-linux:"
        { runnable := 7 } { runnable := 3 } (by decide) (by decide) (by decide)
        (by decide)).2,
    (arch_folding_spec.2.2.2 "x86_64-linux:" (by decide)).1⟩
